import Mathlib

/-!
Verification development for the card-embedding batch pipeline
(`scripts/embed_cards.py` and the property extractor shared with
`scripts/make_dummy_vectors.py`).

The Python program is shallowly embedded: JSON card records become the
`Card` structure (absent keys and JSON `null` are both `Option.none`),
Python dictionaries become association lists, the driver loop of `main`
becomes the structurally recursive `pyWindow`, floating-point vectors
become `List ℝ`, and the checkpoint file on disk becomes the `CpFile`
state that `resolveStartOffset` reads and `commit_checkpoint` writes.
Python truthiness of an optional string (`None` and `""` are both falsy)
is modelled by comparing `strVal x` with `""`.
-/

/-- Models `x or ""` on a value that is either a JSON string, JSON null,
or absent: `card.get(k)` yields `Option String`, and `getD ""` collapses
the falsy cases exactly as the Python idiom does. -/
def strVal (x : Option String) : String := x.getD ""

/-- Property values that `extract_props` can place in the property
record: JSON null, strings, floats (modelled as rationals), ints, and
lists of strings. -/
inductive PVal
  | null
  | str (s : String)
  | num (q : ℚ)
  | int (n : Int)
  | strList (l : List String)
deriving DecidableEq, Repr

/-- One key/value pair of the compact legalities encoding produced by
`json.dumps(legalities, separators=(",", ":"))`. -/
def jsonPair (p : String × String) : String :=
  "\"" ++ p.1 ++ "\":\"" ++ p.2 ++ "\""

/-- Compact single-line JSON object encoding of the legalities mapping,
as produced by `json.dumps(legalities, separators=(",", ":"))` for
string-valued mappings without escape-worthy characters. -/
def jsonObjStr (l : List (String × String)) : String :=
  "\x7b" ++ String.intercalate "," (l.map jsonPair) ++ "\x7d"

/-- A face sub-record of a multi-faced card (`card_faces` entries).
Only the fields the program reads are modelled. -/
structure Face where
  type_line : Option String
  oracle_text : Option String
  image_uris : Option (List (String × Option String))
deriving DecidableEq, Repr

/-- A Scryfall card record, restricted to the fields the program reads.
`none` stands for an absent key or a JSON null value. -/
structure Card where
  id : Option String
  name : Option String
  mana_cost : Option String
  cmc : Option ℚ
  type_line : Option String
  oracle_text : Option String
  power : Option String
  toughness : Option String
  colors : Option (List String)
  color_identity : Option (List String)
  keywords : Option (List String)
  edhrec_rank : Option Int
  set : Option String
  collector_number : Option String
  rarity : Option String
  layout : Option String
  image_uris : Option (List (String × Option String))
  legalities : Option (List (String × String))
  card_faces : Option (List Face)
deriving DecidableEq, Repr

/-- Translation of `colors_to_words` from `embed_cards.py`: the 5-entry
dictionary lookup with the colour code itself as the default, joined
with `"/"`; an empty (or absent, already defaulted) colour list gives
the literal `"Colorless"`. -/
def colors_to_words (colors : List String) : String :=
  let mapping : List (String × String) :=
    [("W", "White"), ("U", "Blue"), ("B", "Black"), ("R", "Red"), ("G", "Green")]
  if colors.isEmpty then "Colorless"
  else String.intercalate "/" (colors.map fun c => (mapping.lookup c).getD c)

/-- Oracle-text resolution used by `build_embed_text` (lines 95-105 of
`embed_cards.py`): a non-empty top-level oracle text is used unchanged;
otherwise, each face whose type line or oracle text is truthy
contributes `"<type line> :: <oracle text>"`, and the fragments are
joined with `" || "`. -/
def embed_oracle_text (card : Card) : String :=
  let ot := strVal card.oracle_text
  if ot = "" then
    let faces := card.card_faces.getD []
    let parts := faces.filterMap fun f =>
      let tl := strVal f.type_line
      let fot := strVal f.oracle_text
      if tl = "" ∧ fot = "" then none else some (tl ++ " :: " ++ fot)
    String.intercalate " || " parts
  else ot

/-- The labelled field lines that `build_embed_text` appends to its
`fields` list, in source order: optional Name, optional Type, optional
ManaCost, mandatory Colors, optional Oracle. -/
def embed_fields (card : Card) (include_name : Bool) : List String :=
  let name := strVal card.name
  let type_line := strVal card.type_line
  let mana_cost := strVal card.mana_cost
  let colors_str := colors_to_words (card.colors.getD [])
  let oracle_text := embed_oracle_text card
  (if include_name = true ∧ name ≠ "" then ["Name: " ++ name] else []) ++
  (if type_line ≠ "" then ["Type: " ++ type_line] else []) ++
  (if mana_cost ≠ "" then ["ManaCost: " ++ mana_cost] else []) ++
  ["Colors: " ++ colors_str] ++
  (if oracle_text ≠ "" then ["Oracle: " ++ oracle_text] else [])

/-- Translation of `build_embed_text` from `embed_cards.py`: the
newline-join of the labelled field lines. -/
def build_embed_text (card : Card) (include_name : Bool) : String :=
  String.intercalate "\n" (embed_fields card include_name)

/-- Oracle-text resolution used by `extract_props` (lines 133-142 of
`embed_cards.py`): a non-empty top-level oracle text is used unchanged;
otherwise the truthy face oracle texts (and only those, no type lines)
are joined with `" || "`. -/
def props_oracle_text (card : Card) : String :=
  let ot := strVal card.oracle_text
  if ot = "" then
    let faces := card.card_faces.getD []
    let parts := faces.filterMap fun f =>
      let fot := strVal f.oracle_text
      if fot = "" then none else some fot
    String.intercalate " || " parts
  else ot

/-- The face-scanning part of `get_image`: return the value of the first
face whose `image_uris` mapping contains the requested key, else `""`. -/
def faces_image (faces : List Face) (key : String) : String :=
  match faces with
  | [] => ""
  | f :: rest =>
    match (f.image_uris.getD []).lookup key with
    | some v => strVal v
    | none => faces_image rest key

/-- Translation of `get_image` (nested in `extract_props`): the card's
own `image_uris` wins when it contains the key, otherwise the faces are
scanned in order, otherwise the result is `""`. -/
def get_image (card : Card) (key : String) : String :=
  match (card.image_uris.getD []).lookup key with
  | some v => strVal v
  | none => faces_image (card.card_faces.getD []) key

/-- Models `card.get(k)` for the two keys that may surface as JSON null
in the property record (`scryfall_id` and `name`). -/
def optStr (x : Option String) : PVal :=
  match x with
  | none => PVal.null
  | some s => PVal.str s

/-- Translation of `extract_props` from `embed_cards.py` (lines
147-167): the flattened property record, in source key order. `cmc` and
`edhrec_rank` are coerced to numbers when present and are `null` when
absent; most other fields default to `""` or `[]`; legalities serialize
to the compact JSON encoding, with `""` for an absent or empty mapping. -/
def extract_props (card : Card) : List (String × PVal) :=
  let legalities_str :=
    match card.legalities with
    | none => ""
    | some l => if l.isEmpty then "" else jsonObjStr l
  [("scryfall_id", optStr card.id),
   ("name", optStr card.name),
   ("mana_cost", PVal.str (strVal card.mana_cost)),
   ("cmc", match card.cmc with | some q => PVal.num q | none => PVal.null),
   ("type_line", PVal.str (strVal card.type_line)),
   ("oracle_text", PVal.str (props_oracle_text card)),
   ("power", PVal.str (strVal card.power)),
   ("toughness", PVal.str (strVal card.toughness)),
   ("colors", PVal.strList (card.colors.getD [])),
   ("color_identity", PVal.strList (card.color_identity.getD [])),
   ("keywords", PVal.strList (card.keywords.getD [])),
   ("edhrec_rank", match card.edhrec_rank with | some n => PVal.int n | none => PVal.null),
   ("set", PVal.str (strVal card.set)),
   ("collector_number", PVal.str (strVal card.collector_number)),
   ("rarity", PVal.str (strVal card.rarity)),
   ("layout", PVal.str (strVal card.layout)),
   ("image_small", PVal.str (get_image card "small")),
   ("image_normal", PVal.str (get_image card "normal")),
   ("legalities", PVal.str legalities_str)]

/-- Translation of the null-stripping comprehension in `main` (line
255): `{k: v for k, v in props.items() if v is not None}`. -/
def clean_props (props : List (String × PVal)) : List (String × PVal) :=
  props.filter fun p => decide (p.2 ≠ PVal.null)

/-- Sum of squared components, the `s` computed by `l2_normalize`. -/
noncomputable def sumSq (vec : List ℝ) : ℝ :=
  (vec.map fun v => v * v).sum

/-- Euclidean norm of a vector, `math.sqrt(s)` in the source. -/
noncomputable def euclNorm (vec : List ℝ) : ℝ :=
  Real.sqrt (sumSq vec)

/-- Translation of `l2_normalize` from `embed_cards.py`: when the sum of
squares is not positive the raw vector is returned unchanged, otherwise
every component is divided by the Euclidean norm. -/
noncomputable def l2_normalize (vec : List ℝ) : List ℝ :=
  let s := sumSq vec
  if s ≤ 0 then vec
  else
    let n := Real.sqrt s
    vec.map fun v => v / n

/-- Fuel-indexed batching of a list into consecutive slices of size
`bs`, mirroring `range(0, len(texts), batch_size)` with the slices
`texts[i:i+batch_size]`; the fuel is instantiated with the list length,
which suffices for every positive batch size. -/
def chunksF {α : Type} : ℕ → ℕ → List α → List (List α)
  | 0, _, _ => []
  | _ + 1, _, [] => []
  | fuel + 1, bs, x :: xs => (x :: xs).take bs :: chunksF fuel bs ((x :: xs).drop bs)

/-- The batch slices `texts[i:i+batch_size]` for `i` in
`range(0, len(texts), batch_size)`. -/
def chunks {α : Type} (bs : ℕ) (l : List α) : List (List α) :=
  chunksF l.length bs l

/-- The batched encoding loop of `main` (lines 233-249), generic in the
vector type: each batch is passed to the opaque encoder, every returned
row is normalized, and the per-batch results are concatenated in order. -/
def encodeAllG {V : Type} (normalize : V → V) (encode : List String → List V)
    (batchSize : ℕ) (texts : List String) : List V :=
  ((chunks batchSize texts).map fun b => (encode b).map normalize).flatten

/-- The batched encoding loop instantiated with the real per-row
normalization `l2_normalize`. -/
noncomputable def encodeAll (encode : List String → List (List ℝ))
    (batchSize : ℕ) (texts : List String) : List (List ℝ) :=
  encodeAllG l2_normalize encode batchSize texts

/-- The JSON state written to the checkpoint file (lines 273-280 of
`embed_cards.py`). -/
structure CheckpointState where
  next_offset : Int
  total : ℕ
  last_batch_out : String
  model : String
  include_name : Bool
  kind : String
deriving DecidableEq, Repr

/-- What reading the checkpoint path can observe: no file
(`FileNotFoundError`), an unreadable or non-JSON or non-integer file
(any other exception), or a valid state. -/
inductive CpFile
  | absent
  | malformed
  | valid (st : CheckpointState)
deriving DecidableEq, Repr

/-- Outcome of the checkpoint write attempt: success, a failure raised
before the file is opened for writing (file untouched), or a failure
raised after `open(path, "w")` has truncated the file but before
`json.dump` has completed (file left unparseable). -/
inductive WriteFailure
  | ok
  | beforeWrite
  | midWrite
deriving DecidableEq, Repr

/-- Translation of the offset resolution in `main` (lines 196-208).
`none` models a run without `--checkpoint`. The second component
records whether the `WARN: failed to read checkpoint` message was
printed. The explicit offset is kept unless it is `0` and the
checkpoint holds a positive `next_offset`. -/
def resolveStartOffset (explicitOffset : Int) (cp : Option CpFile) : Int × Bool :=
  match cp with
  | none => (explicitOffset, false)
  | some CpFile.absent => (explicitOffset, false)
  | some CpFile.malformed => (explicitOffset, true)
  | some (CpFile.valid st) =>
    if explicitOffset = 0 ∧ 0 < st.next_offset then (st.next_offset, false)
    else (explicitOffset, false)

/-- Translation of the checkpoint write in `main` (lines 281-286):
`open(path, "w")` followed by `json.dump(state, cf)` inside
`try/except`. A success replaces the file content with the new state; a
failure before the `open` call leaves the prior content; a failure
after the truncating `open` leaves an unparseable file. The second
component records whether the `WARN: failed to write checkpoint`
message was printed; in every case the function returns, so the run
itself does not fail. -/
def commit_checkpoint (prior : CpFile) (st : CheckpointState) :
    WriteFailure → CpFile × Bool
  | WriteFailure.ok => (CpFile.valid st, false)
  | WriteFailure.beforeWrite => (prior, true)
  | WriteFailure.midWrite => (CpFile.malformed, true)

/-- Python truthiness of `c.get("id")`: the driver accepts a card only
when its identifier is a non-empty string. -/
def hasId (c : Card) : Bool :=
  match c.id with
  | some s => !s.isEmpty
  | none => false

/-- Pairs each list element with its index, starting from `k`. Used to
name the original positions of the cards the driver loop walks over. -/
def enumIdx {α : Type} (k : ℕ) : List α → List (ℕ × α)
  | [] => []
  | x :: xs => (k, x) :: enumIdx (k + 1) xs

/-- Translation of the windowing loop of `main` (lines 215-231), run on
the position-annotated card list. The state `(i, p)` mirrors the Python
variables `i` and `processed`: a card is skipped with `i` incremented
while `i < start_offset`; a card without a truthy id is skipped with
`i` unchanged; otherwise the card is accepted, `i` and `processed` are
incremented, and the loop breaks once `limit` is non-zero and
`processed` reaches it. The first result component is the accepted
`(position, card)` list, the second is the number of cards consumed
from the input before the loop stopped. -/
def pyWindow (start limit : ℕ) : List (ℕ × Card) → ℕ → ℕ → List (ℕ × Card) × ℕ
  | [], _, _ => ([], 0)
  | (k, c) :: rest, i, p =>
    if i < start then
      let r := pyWindow start limit rest (i + 1) p
      (r.1, r.2 + 1)
    else if hasId c = false then
      let r := pyWindow start limit rest i p
      (r.1, r.2 + 1)
    else if limit ≠ 0 ∧ limit ≤ p + 1 then ([(k, c)], 1)
    else
      let r := pyWindow start limit rest (i + 1) (p + 1)
      ((k, c) :: r.1, r.2 + 1)

/-- The windowing loop applied to a whole card collection with the
initial Python state `i = 0`, `processed = 0`. -/
def runWindow (start limit : ℕ) (cards : List Card) : List (ℕ × Card) × ℕ :=
  pyWindow start limit (enumIdx 0 cards) 0 0

/-- One record of the output batch file (lines 256-261 of
`embed_cards.py`): the fixed class tag, the card identifier, the
null-stripped property record, and the vector. -/
structure OutputObject (V : Type) where
  objClass : String
  id : String
  properties : List (String × PVal)
  vector : V
deriving DecidableEq, Repr

/-- Observable outcome of one pipeline run: the batch file content, the
checkpoint file after the run (unchanged input when no checkpoint path
was given), the two warning flags, and the start offset the run used. -/
structure RunResult (V : Type) where
  batch : List (OutputObject V)
  cpAfter : Option CpFile
  warnedRead : Bool
  warnedWrite : Bool
  startUsed : Int
deriving DecidableEq, Repr

/-- Translation of `main` from `embed_cards.py`, generic in the opaque
encoder: resolve the start offset from the explicit offset and the
checkpoint, window the collection, build embed texts and property
records for the accepted cards, encode in batches, zip identifiers,
cleaned properties and vectors into output objects, and finally commit
the checkpoint when a checkpoint path was given. The `assert
len(vectors) == len(idx_map)` of line 251 is modelled by returning
`none` when the encoder breaks the 1:1 contract. `wf` names the fate
of the checkpoint write attempt. -/
def runPipeline (V : Type) (normalize : V → V) (encode : List String → List V)
    (batchSize : ℕ) (include_name : Bool) (limit : ℕ) (offset : Int)
    (modelName batchOut kindTag : String) (cards : List Card)
    (cp : Option CpFile) (wf : WriteFailure) : Option (RunResult V) :=
  let resolved := resolveStartOffset offset cp
  let start := resolved.1
  let accepted := (pyWindow start.toNat limit (enumIdx 0 cards) 0 0).1
  let texts := accepted.map fun x => build_embed_text x.2 include_name
  let idxMap := accepted.map fun x => (strVal x.2.id, extract_props x.2)
  let vectors := encodeAllG normalize encode batchSize texts
  if vectors.length = idxMap.length then
    let objects := (idxMap.zip vectors).map fun pv =>
      { objClass := "Card", id := pv.1.1, properties := clean_props pv.1.2,
        vector := pv.2 : OutputObject V }
    let committed : Option CpFile × Bool :=
      match cp with
      | none => (none, false)
      | some prior =>
        let st : CheckpointState :=
          { next_offset := start + (objects.length : ℕ), total := cards.length,
            last_batch_out := batchOut, model := modelName,
            include_name := include_name, kind := kindTag }
        let r := commit_checkpoint prior st wf
        (some r.1, r.2)
    some { batch := objects, cpAfter := committed.1, warnedRead := resolved.2,
           warnedWrite := committed.2, startUsed := start }
  else none

/-- Colour-name table written from the specification wording: the fixed
5-entry map W→White, U→Blue, B→Black, R→Red, G→Green, with unknown
codes passing through verbatim. -/
def specColorWord (c : String) : String :=
  if c = "W" then "White"
  else if c = "U" then "Blue"
  else if c = "B" then "Black"
  else if c = "R" then "Red"
  else if c = "G" then "Green"
  else c

/-- Colour resolution written from the specification wording: empty set
gives the literal token `"Colorless"`, otherwise the mapped colour
names joined with `"/"`. -/
def specResolveColors (colors : List String) : String :=
  if colors = [] then "Colorless"
  else String.intercalate "/" (colors.map specColorWord)

/-- Embed-text oracle fallback written from the specification wording:
for each face with a non-empty type line or oracle text, build
`"<face type line> :: <face oracle text>"`, and join the fragments with
`" || "`. -/
def specEmbedOracleFallback (card : Card) : String :=
  String.intercalate " || "
    (((card.card_faces.getD []).filter fun f =>
        strVal f.type_line ≠ "" ∨ strVal f.oracle_text ≠ "").map
      fun f => strVal f.type_line ++ " :: " ++ strVal f.oracle_text)

/-- Oracle resolution for the embed text, written from the
specification wording: a non-empty top-level oracle text is used,
otherwise the face fallback. -/
def specResolveOracle (card : Card) : String :=
  if strVal card.oracle_text ≠ "" then strVal card.oracle_text
  else specEmbedOracleFallback card

/-- Canonical embedding text written from the specification wording:
the newline-joined, present-only labelled lines in the fixed order
Name, Type, ManaCost, Colors (always), Oracle. -/
def specEmbedText (card : Card) (include_name : Bool) : String :=
  String.intercalate "\n" (
    (if include_name = true ∧ strVal card.name ≠ "" then
      ["Name: " ++ strVal card.name] else []) ++
    (if strVal card.type_line ≠ "" then ["Type: " ++ strVal card.type_line] else []) ++
    (if strVal card.mana_cost ≠ "" then ["ManaCost: " ++ strVal card.mana_cost] else []) ++
    ["Colors: " ++ specResolveColors (card.colors.getD [])] ++
    (if specResolveOracle card ≠ "" then ["Oracle: " ++ specResolveOracle card] else []))

/-- Property-record oracle fallback written from the specification
wording: the `" || "`-join of the non-empty face oracle texts, in face
order, ignoring face type lines. -/
def specPropsOracleFallback (card : Card) : String :=
  String.intercalate " || "
    (((card.card_faces.getD []).map fun f => strVal f.oracle_text).filter
      fun s => s ≠ "")

/-- Replaces the type line of every face of a card according to `g`,
leaving everything else unchanged. Two cards related by such a rewrite
agree on everything except face type lines. -/
def mapFaceTypeLines (g : Option String → Option String) (card : Card) : Card :=
  { card with
    card_faces := card.card_faces.map fun faces =>
      faces.map fun f => { f with type_line := g f.type_line } }

/-- A card record with every field absent, used as the base for the
concrete example inputs below. -/
def emptyCard : Card :=
  { id := none, name := none, mana_cost := none, cmc := none, type_line := none,
    oracle_text := none, power := none, toughness := none, colors := none,
    color_identity := none, keywords := none, edhrec_rank := none, set := none,
    collector_number := none, rarity := none, layout := none, image_uris := none,
    legalities := none, card_faces := none }

/-- A concrete double-faced card with no top-level oracle text, whose
faces carry both type lines and oracle texts. It witnesses the
asymmetry between the embed-text and property oracle fallbacks. -/
def dfcCard : Card :=
  { emptyCard with
    id := some "dfc1",
    name := some "Delver",
    card_faces := some
      [{ type_line := some "Creature A", oracle_text := some "Flying", image_uris := none },
       { type_line := some "Creature B", oracle_text := some "Haste", image_uris := none }] }

/-- A concrete ordinary card used by several witnesses. -/
def plainCard : Card :=
  { emptyCard with
    id := some "p1",
    name := some "Bolt",
    mana_cost := some "R",
    cmc := some 1,
    type_line := some "Instant",
    oracle_text := some "Deal 3 damage.",
    colors := some ["R"],
    edhrec_rank := some 77 }

/-- An ordered 5-card collection whose cards all carry distinct
non-empty identifiers, for the two-run checkpoint scenario. -/
def fiveCards : List Card :=
  [{ emptyCard with id := some "a" },
   { emptyCard with id := some "b" },
   { emptyCard with id := some "c" },
   { emptyCard with id := some "d" },
   { emptyCard with id := some "e" }]

/-- A collection containing an identifier-less card at position 1, for
the windowing/checkpoint drift scenario. -/
def driftCards : List Card :=
  [{ emptyCard with id := some "a" },
   { emptyCard with name := some "NoIdCard" },
   { emptyCard with id := some "b" },
   { emptyCard with id := some "c" }]

/-- A concrete valid checkpoint state, the prior content in the failed
commit scenario. -/
def cpPrior : CheckpointState :=
  { next_offset := 7, total := 100, last_batch_out := "old.json",
    model := "m", include_name := false, kind := "st" }

/-- The concrete new checkpoint state a failed commit was trying to
write. -/
def cpNew : CheckpointState :=
  { next_offset := 9, total := 100, last_batch_out := "new.json",
    model := "m", include_name := false, kind := "st" }

/-- The face fragments collected by the embed-text fallback are the
mapped image of the faces with a truthy type line or oracle text. -/
theorem embed_parts_eq (faces : List Face) :
    (faces.filterMap fun f =>
      if strVal f.type_line = "" ∧ strVal f.oracle_text = "" then none
      else some (strVal f.type_line ++ " :: " ++ strVal f.oracle_text)) =
    ((faces.filter fun f => strVal f.type_line ≠ "" ∨ strVal f.oracle_text ≠ "").map
      fun f => strVal f.type_line ++ " :: " ++ strVal f.oracle_text) := by
  induction faces with
  | nil => rfl
  | cons f fs ih =>
    by_cases hf : strVal f.type_line = "" ∧ strVal f.oracle_text = ""
    · simp [List.filterMap_cons, List.filter_cons, hf, hf.1, hf.2, ih]
    · have hf2 : strVal f.type_line ≠ "" ∨ strVal f.oracle_text ≠ "" := by tauto
      simp [List.filterMap_cons, List.filter_cons, hf, hf2, ih]

/-- The dictionary lookup of `colors_to_words` agrees with the fixed
5-entry table of the specification. -/
theorem lookup_color_eq (c : String) :
    ((([("W", "White"), ("U", "Blue"), ("B", "Black"), ("R", "Red"), ("G", "Green")] :
        List (String × String)).lookup c).getD c) = specColorWord c := by
  simp only [List.lookup, specColorWord]
  cases hW : c == "W" with
  | true => obtain rfl := eq_of_beq hW; simp
  | false =>
    rw [if_neg (ne_of_beq_false hW)]
    cases hU : c == "U" with
    | true => obtain rfl := eq_of_beq hU; simp
    | false =>
      rw [if_neg (ne_of_beq_false hU)]
      cases hB : c == "B" with
      | true => obtain rfl := eq_of_beq hB; simp
      | false =>
        rw [if_neg (ne_of_beq_false hB)]
        cases hR : c == "R" with
        | true => obtain rfl := eq_of_beq hR; simp
        | false =>
          rw [if_neg (ne_of_beq_false hR)]
          cases hG : c == "G" with
          | true => obtain rfl := eq_of_beq hG; simp
          | false => rw [if_neg (ne_of_beq_false hG)]; rfl

/-- The colour resolution of the source agrees with the wording of the
specification. -/
theorem colors_to_words_eq_spec (colors : List String) :
    colors_to_words colors = specResolveColors colors := by
  unfold colors_to_words specResolveColors
  cases colors with
  | nil => rfl
  | cons c cs => simp [lookup_color_eq]

/-- On a card without truthy top-level oracle text, the embed-text
fallback of the source agrees with the face-joining rule worded in the
specification. -/
theorem embed_oracle_fallback_eq (card : Card) (h : strVal card.oracle_text = "") :
    embed_oracle_text card = specEmbedOracleFallback card := by
  unfold embed_oracle_text specEmbedOracleFallback
  dsimp only
  rw [if_pos h, embed_parts_eq]

/-- The oracle resolution of `build_embed_text` agrees with the worded
rule for every card. -/
theorem embed_oracle_eq_spec (card : Card) :
    embed_oracle_text card = specResolveOracle card := by
  by_cases h : strVal card.oracle_text = ""
  · rw [embed_oracle_fallback_eq card h]
    unfold specResolveOracle
    rw [if_neg (by simp [h])]
  · unfold embed_oracle_text specResolveOracle
    rw [if_neg h, if_pos h]

/-- Claim C3: for every card and includeName flag, `build_embed_text`
returns the newline-join of labelled lines in the fixed order Name,
Type, ManaCost, Colors, Oracle, with the stated presence conditions,
the Colors line always present with the "Colorless" fallback and the
5-entry colour table with verbatim pass-through of unknown codes; and
the function is a pure function of its two arguments. -/
theorem claim_C3_embed_text_format :
    (∀ (card : Card) (inc : Bool), build_embed_text card inc = specEmbedText card inc)
    ∧ ∀ (c₁ c₂ : Card) (b₁ b₂ : Bool), c₁ = c₂ → b₁ = b₂ →
        build_embed_text c₁ b₁ = build_embed_text c₂ b₂ := by
  constructor
  · intro card inc
    unfold build_embed_text specEmbedText embed_fields
    rw [colors_to_words_eq_spec, embed_oracle_eq_spec]
  · intro c₁ c₂ b₁ b₂ hc hb
    rw [hc, hb]

/-- Claim C3 witness: the format theorem and the determinism clause
instantiated on a concrete card. -/
theorem claim_C3_witness :
    build_embed_text plainCard true = specEmbedText plainCard true ∧
      build_embed_text plainCard true = build_embed_text plainCard true :=
  ⟨claim_C3_embed_text_format.1 plainCard true,
   claim_C3_embed_text_format.2 plainCard plainCard true true rfl rfl⟩

/-- Claim C2: when the top-level oracle text is absent or empty, the
embed-text oracle value is derived by joining, for each face with a
non-empty type line or oracle text, the fragment
`"<type line> :: <oracle text>"` with `" || "`; when no face qualifies
the value is empty and the Oracle line is omitted (the field list then
has only the base fields); a non-empty top-level oracle text is used
unchanged. -/
theorem claim_C2_embed_oracle_rule :
    ∀ (card : Card) (inc : Bool),
      (strVal card.oracle_text = "" →
        embed_oracle_text card = specEmbedOracleFallback card)
      ∧ (strVal card.oracle_text ≠ "" →
        embed_oracle_text card = strVal card.oracle_text)
      ∧ (strVal card.oracle_text = "" →
        (∀ f ∈ card.card_faces.getD [],
          strVal f.type_line = "" ∧ strVal f.oracle_text = "") →
        embed_oracle_text card = "")
      ∧ (embed_oracle_text card = "" →
        (embed_fields card inc).length =
          (if inc = true ∧ strVal card.name ≠ "" then 1 else 0) +
          (if strVal card.type_line ≠ "" then 1 else 0) +
          (if strVal card.mana_cost ≠ "" then 1 else 0) + 1) := by
  intro card inc
  refine ⟨embed_oracle_fallback_eq card, ?_, ?_, ?_⟩
  · intro h
    unfold embed_oracle_text
    dsimp only
    rw [if_neg h]
  · intro h hall
    rw [embed_oracle_fallback_eq card h]
    unfold specEmbedOracleFallback
    have : (card.card_faces.getD []).filter
        (fun f => strVal f.type_line ≠ "" ∨ strVal f.oracle_text ≠ "") = [] := by
      refine List.filter_eq_nil.mpr fun f hf => ?_
      have := hall f hf
      simp [this.1, this.2]
    rw [this]
    rfl
  · intro h
    unfold embed_fields
    dsimp only
    rw [h]
    simp only [ne_eq, not_true_eq_false, if_false, List.append_nil]
    by_cases h1 : inc = true ∧ strVal card.name ≠ "" <;>
      by_cases h2 : strVal card.type_line ≠ "" <;>
        by_cases h3 : strVal card.mana_cost ≠ "" <;>
          simp [h1, h2, h3]

/-- Claim C2 witness: the fallback rule applied to the concrete
double-faced card, and the pass-through rule applied to the concrete
plain card. -/
theorem claim_C2_witness :
    embed_oracle_text dfcCard = specEmbedOracleFallback dfcCard ∧
      embed_oracle_text plainCard = strVal plainCard.oracle_text :=
  ⟨(claim_C2_embed_oracle_rule dfcCard false).1 (by decide),
   (claim_C2_embed_oracle_rule plainCard false).2.1 (by decide)⟩

/-- The face oracle texts collected by the property fallback are the
filtered image of the face oracle texts. -/
theorem props_parts_eq (faces : List Face) :
    (faces.filterMap fun f =>
      if strVal f.oracle_text = "" then none else some (strVal f.oracle_text)) =
    ((faces.map fun f => strVal f.oracle_text).filter fun s => s ≠ "") := by
  induction faces with
  | nil => rfl
  | cons f fs ih =>
    by_cases hf : strVal f.oracle_text = ""
    · simp [List.filterMap_cons, List.filter_cons, hf, ih]
    · simp [List.filterMap_cons, List.filter_cons, hf, ih]

/-- Claim C4: the property-record oracle fallback joins only the
non-empty face oracle texts, in order, and never reads face type lines
(rewriting every face type line leaves it unchanged), while the
embed-text fallback does include type lines: on the concrete
double-faced card the two resolutions differ. -/
theorem claim_C4_props_oracle_asymmetry :
    (∀ (card : Card) (g : Option String → Option String),
        props_oracle_text (mapFaceTypeLines g card) = props_oracle_text card)
    ∧ (∀ card : Card, strVal card.oracle_text = "" →
        props_oracle_text card = specPropsOracleFallback card)
    ∧ props_oracle_text dfcCard ≠ embed_oracle_text dfcCard := by
  refine ⟨?_, ?_, by decide⟩
  · intro card g
    unfold props_oracle_text mapFaceTypeLines
    cases hcf : card.card_faces with
    | none => rfl
    | some faces =>
      simp only [hcf, Option.map_some', Option.getD_some, List.filterMap_map]
      rfl
  · intro card h
    unfold props_oracle_text specPropsOracleFallback
    dsimp only
    rw [if_pos h, props_parts_eq]

/-- Claim C4 witness: the type-line independence applied at a concrete
rewrite of the double-faced card, and the fallback characterization at
the same card. -/
theorem claim_C4_witness :
    props_oracle_text (mapFaceTypeLines (fun _ => some "X") dfcCard) =
        props_oracle_text dfcCard ∧
      props_oracle_text dfcCard = specPropsOracleFallback dfcCard :=
  ⟨claim_C4_props_oracle_asymmetry.1 dfcCard (fun _ => some "X"),
   claim_C4_props_oracle_asymmetry.2.1 dfcCard (by decide)⟩

/-- Values surviving the null-stripping comprehension are never null. -/
theorem clean_props_no_null (props : List (String × PVal)) :
    ∀ kv ∈ clean_props props, kv.2 ≠ PVal.null := by
  intro kv h
  unfold clean_props at h
  exact of_decide_eq_true (List.mem_filter.mp h).2

/-- Claim C9: every key in the properties of an emitted OutputObject has
a non-null value; `cmc` and `edhrec_rank` appear as numeric values
exactly when present on the source card and are absent from the cleaned
record otherwise, and a missing name is likewise removed. -/
theorem claim_C9_no_null_properties :
    (∀ (V : Type) (normalize : V → V) (encode : List String → List V)
        (bs : ℕ) (inc : Bool) (limit : ℕ) (off : Int) (mo mb kd : String)
        (cards : List Card) (cp : Option CpFile) (wf : WriteFailure)
        (r : RunResult V),
      runPipeline V normalize encode bs inc limit off mo mb kd cards cp wf = some r →
      ∀ obj ∈ r.batch, ∀ kv ∈ obj.properties, kv.2 ≠ PVal.null)
    ∧ (∀ (card : Card) (q : ℚ), card.cmc = some q →
        ("cmc", PVal.num q) ∈ clean_props (extract_props card))
    ∧ (∀ card : Card, card.cmc = none →
        ∀ v, ("cmc", v) ∉ clean_props (extract_props card))
    ∧ (∀ (card : Card) (n : Int), card.edhrec_rank = some n →
        ("edhrec_rank", PVal.int n) ∈ clean_props (extract_props card))
    ∧ (∀ card : Card, card.edhrec_rank = none →
        ∀ v, ("edhrec_rank", v) ∉ clean_props (extract_props card))
    ∧ (∀ card : Card, card.name = none →
        ∀ v, ("name", v) ∉ clean_props (extract_props card)) := by
  refine ⟨?_, ?_, ?_, ?_, ?_, ?_⟩
  · intro V normalize encode bs inc limit off mo mb kd cards cp wf r hr obj hobj kv hkv
    unfold runPipeline at hr
    dsimp only at hr
    split at hr
    · obtain rfl := Option.some.inj hr
      obtain ⟨pv, hpv, rfl⟩ := List.mem_map.mp hobj
      exact clean_props_no_null _ kv hkv
    · exact absurd hr (by simp)
  · intro card q h
    refine List.mem_filter.mpr ⟨?_, by simp⟩
    simp [extract_props, h]
  · intro card h v hv
    have hmem := List.mem_filter.mp hv
    have hin := hmem.1
    simp only [extract_props, h, List.mem_cons, List.not_mem_nil, or_false] at hin
    rcases hin with h1 | h1 | h1 | h1 | h1 | h1 | h1 | h1 | h1 | h1 | h1 | h1 | h1 | h1 | h1 | h1 | h1 | h1 | h1
    all_goals simp only [Prod.mk.injEq] at h1
    all_goals obtain ⟨hk, hv2⟩ := h1
    all_goals first
      | exact absurd hk (by decide)
      | exact of_decide_eq_true hmem.2 hv2
  · intro card n h
    refine List.mem_filter.mpr ⟨?_, by simp⟩
    simp [extract_props, h]
  · intro card h v hv
    have hmem := List.mem_filter.mp hv
    have hin := hmem.1
    simp only [extract_props, h, List.mem_cons, List.not_mem_nil, or_false] at hin
    rcases hin with h1 | h1 | h1 | h1 | h1 | h1 | h1 | h1 | h1 | h1 | h1 | h1 | h1 | h1 | h1 | h1 | h1 | h1 | h1
    all_goals simp only [Prod.mk.injEq] at h1
    all_goals obtain ⟨hk, hv2⟩ := h1
    all_goals first
      | exact absurd hk (by decide)
      | exact of_decide_eq_true hmem.2 hv2
  · intro card h v hv
    have hmem := List.mem_filter.mp hv
    have hin := hmem.1
    simp only [extract_props, h, optStr, List.mem_cons, List.not_mem_nil, or_false] at hin
    rcases hin with h1 | h1 | h1 | h1 | h1 | h1 | h1 | h1 | h1 | h1 | h1 | h1 | h1 | h1 | h1 | h1 | h1 | h1 | h1
    all_goals simp only [Prod.mk.injEq] at h1
    all_goals obtain ⟨hk, hv2⟩ := h1
    all_goals first
      | exact absurd hk (by decide)
      | exact of_decide_eq_true hmem.2 hv2

/-- Claim C9 witness: the invariant applied to a concrete pipeline run
over one card, and the cmc and edhrec coercions evaluated on the
concrete plain card. -/
theorem claim_C9_witness :
    ("cmc", PVal.num 1) ∈ clean_props (extract_props plainCard) ∧
      ("edhrec_rank", PVal.int 77) ∈ clean_props (extract_props plainCard) ∧
      (∀ v, ("name", v) ∉ clean_props (extract_props emptyCard)) :=
  ⟨claim_C9_no_null_properties.2.1 plainCard 1 rfl,
   claim_C9_no_null_properties.2.2.2.1 plainCard 77 rfl,
   claim_C9_no_null_properties.2.2.2.2.2 emptyCard rfl⟩

/-- A list of squares has a non-negative sum. -/
theorem sumSq_nonneg (vec : List ℝ) : 0 ≤ sumSq vec := by
  refine List.sum_nonneg fun x hx => ?_
  obtain ⟨v, _, rfl⟩ := List.mem_map.mp hx
  exact mul_self_nonneg v

/-- A list of non-negative reals with sum zero is pointwise zero. -/
theorem sum_zero_all_zero (l : List ℝ) (hnn : ∀ x ∈ l, 0 ≤ x) (hs : l.sum = 0) :
    ∀ x ∈ l, x = 0 := by
  induction l with
  | nil => intro x hx; cases hx
  | cons a l ih =>
    have ha : 0 ≤ a := hnn a (List.mem_cons_self a l)
    have hl : 0 ≤ l.sum := List.sum_nonneg fun x hx => hnn x (List.mem_cons_of_mem a hx)
    rw [List.sum_cons] at hs
    have ha0 : a = 0 := le_antisymm (by linarith) ha
    have hl0 : l.sum = 0 := by linarith
    intro x hx
    rcases List.mem_cons.mp hx with rfl | hx
    · exact ha0
    · exact ih (fun y hy => hnn y (List.mem_cons_of_mem a hy)) hl0 x hx

/-- When the sum of squares is positive, the normalized vector has sum
of squares exactly one. -/
theorem sumSq_normalized (vec : List ℝ) (h : 0 < sumSq vec) :
    sumSq (vec.map fun v => v / Real.sqrt (sumSq vec)) = 1 := by
  set s := sumSq vec with hs
  have hsqrt : Real.sqrt s * Real.sqrt s = s := Real.mul_self_sqrt h.le
  have hss : s ≠ 0 := ne_of_gt h
  unfold sumSq
  rw [List.map_map]
  have : ((fun v => v * v) ∘ fun v => v / Real.sqrt s) = fun v => (v * v) * s⁻¹ := by
    funext v
    simp only [Function.comp]
    rw [div_mul_div_comm, hsqrt, div_eq_mul_inv]
  rw [this, List.sum_map_mul_right]
  rw [← sumSq, ← hs]
  exact mul_inv_cancel₀ hss

/-- Claim C5: the normalization computes the Euclidean norm; a strictly
positive norm scales every component by its reciprocal, giving unit
norm; a zero norm returns the raw vector unchanged, and that vector is
all-zero; hence every vector of the batch output has unit norm or is
all-zero. -/
theorem claim_C5_l2_normalize :
    (∀ vec : List ℝ, 0 < sumSq vec →
      l2_normalize vec = vec.map (fun v => v / Real.sqrt (sumSq vec)) ∧
        euclNorm (l2_normalize vec) = 1)
    ∧ (∀ vec : List ℝ, sumSq vec = 0 →
        l2_normalize vec = vec ∧ ∀ x ∈ vec, x = 0)
    ∧ (∀ (encode : List String → List (List ℝ)) (bs : ℕ) (texts : List String),
        ∀ v ∈ encodeAll encode bs texts, euclNorm v = 1 ∨ ∀ x ∈ v, x = 0) := by
  have hzero : ∀ vec : List ℝ, sumSq vec = 0 → l2_normalize vec = vec ∧ ∀ x ∈ vec, x = 0 := by
    intro vec h
    constructor
    · unfold l2_normalize
      rw [if_pos (le_of_eq h)]
    · intro x hx
      have hnn : ∀ y ∈ vec.map fun v => v * v, 0 ≤ y := by
        intro y hy
        obtain ⟨v, _, rfl⟩ := List.mem_map.mp hy
        exact mul_self_nonneg v
      have := sum_zero_all_zero _ hnn h (x * x) (List.mem_map.mpr ⟨x, hx, rfl⟩)
      exact mul_self_eq_zero.mp this
  have hpos : ∀ vec : List ℝ, 0 < sumSq vec →
      l2_normalize vec = vec.map (fun v => v / Real.sqrt (sumSq vec)) ∧
        euclNorm (l2_normalize vec) = 1 := by
    intro vec h
    have heq : l2_normalize vec = vec.map fun v => v / Real.sqrt (sumSq vec) := by
      unfold l2_normalize
      rw [if_neg (not_le.mpr h)]
    refine ⟨heq, ?_⟩
    rw [heq]
    unfold euclNorm
    rw [sumSq_normalized vec h]
    exact Real.sqrt_one
  refine ⟨hpos, hzero, ?_⟩
  intro encode bs texts v hv
  unfold encodeAll encodeAllG at hv
  obtain ⟨b, hb, hvb⟩ := List.mem_flatten.mp hv
  obtain ⟨chunk, _, rfl⟩ := List.mem_map.mp hb
  obtain ⟨raw, _, rfl⟩ := List.mem_map.mp hvb
  rcases lt_or_eq_of_le (sumSq_nonneg raw) with h | h
  · left
    rw [(hpos raw h).1] at *
    unfold euclNorm
    rw [sumSq_normalized raw h]
    exact Real.sqrt_one
  · right
    rw [(hzero raw h.symm).1]
    exact (hzero raw h.symm).2

/-- Claim C5 witness: the positive-norm branch evaluated on the vector
(3, 4), whose sum of squares is 25. -/
theorem claim_C5_witness :
    euclNorm (l2_normalize [(3 : ℝ), 4]) = 1 :=
  (claim_C5_l2_normalize.1 [(3 : ℝ), 4] (by norm_num [sumSq])).2

/-- Concatenating the batch slices returns the original list, for any
positive batch size and sufficient fuel. -/
theorem chunksF_flatten {α : Type} (fuel : ℕ) :
    ∀ (bs : ℕ) (l : List α), 0 < bs → l.length ≤ fuel →
      (chunksF fuel bs l).flatten = l := by
  induction fuel with
  | zero =>
    intro bs l _ hl
    have : l = [] := List.eq_nil_of_length_eq_zero (Nat.le_zero.mp hl)
    subst this
    rfl
  | succ fuel ih =>
    intro bs l hbs hl
    cases l with
    | nil => rfl
    | cons x xs =>
      show ((x :: xs).take bs ++ (chunksF fuel bs ((x :: xs).drop bs)).flatten) = x :: xs
      rw [ih bs ((x :: xs).drop bs) hbs
        (by simp only [List.length_drop, List.length_cons] at hl ⊢; omega)]
      exact List.take_append_drop bs (x :: xs)

/-- Concatenating the batch slices of `chunks` returns the input. -/
theorem chunks_flatten {α : Type} (bs : ℕ) (l : List α) (hbs : 0 < bs) :
    (chunks bs l).flatten = l :=
  chunksF_flatten l.length bs l hbs le_rfl

/-- The batched encoding of a pointwise encoder equals the plain map of
the per-text encoder followed by normalization, for every positive
batch size. -/
theorem encodeAllG_pointwise {V : Type} (normalize : V → V) (f : String → V)
    (bs : ℕ) (hbs : 0 < bs) (texts : List String) :
    encodeAllG normalize (fun b => b.map f) bs texts =
      texts.map fun t => normalize (f t) := by
  unfold encodeAllG
  have : ((chunks bs texts).map fun b => (b.map f).map normalize) =
      (chunks bs texts).map (List.map fun t => normalize (f t)) := by
    refine List.map_congr_left fun b _ => ?_
    rw [List.map_map]
    rfl
  rw [this, ← List.map_flatten, chunks_flatten bs texts hbs]

/-- Claim C6: for a pointwise encoder the Batch Encoder emits exactly
one vector per input text, in input order, with no reordering or
filtering, and the output is the same for every positive batch size:
batched encoding equals encoding one text at a time. -/
theorem claim_C6_batch_invariance :
    ∀ (f : String → List ℝ) (bs bs' : ℕ), 0 < bs → 0 < bs' →
      ∀ texts : List String,
        encodeAll (fun b => b.map f) bs texts =
            texts.map (fun t => l2_normalize (f t)) ∧
          encodeAll (fun b => b.map f) bs texts =
            encodeAll (fun b => b.map f) bs' texts ∧
          (encodeAll (fun b => b.map f) bs texts).length = texts.length := by
  intro f bs bs' hbs hbs' texts
  have h1 := encodeAllG_pointwise l2_normalize f bs hbs texts
  have h2 := encodeAllG_pointwise l2_normalize f bs' hbs' texts
  unfold encodeAll
  refine ⟨h1, ?_, ?_⟩
  · rw [h1, h2]
  · rw [h1, List.length_map]

/-- Claim C6 witness: batch sizes 1 and 2 on a concrete two-text input
with a constant encoder. -/
theorem claim_C6_witness :
    encodeAll (fun b => b.map fun _ => [(0 : ℝ)]) 1 ["x", "y"] =
        encodeAll (fun b => b.map fun _ => [(0 : ℝ)]) 2 ["x", "y"] ∧
      (encodeAll (fun b => b.map fun _ => [(0 : ℝ)]) 1 ["x", "y"]).length = 2 :=
  ⟨(claim_C6_batch_invariance (fun _ => [(0 : ℝ)]) 1 2 (by decide) (by decide)
      ["x", "y"]).2.1,
   (claim_C6_batch_invariance (fun _ => [(0 : ℝ)]) 1 2 (by decide) (by decide)
      ["x", "y"]).2.2⟩

/-- Two pipeline runs differing only in the checkpoint-read outcome and
the checkpoint-write outcome, but resolving the same start offset,
produce the same batch. Used for the malformed-checkpoint and
failed-commit claims. -/
theorem runPipeline_batch_eq (V : Type) (normalize : V → V)
    (encode : List String → List V) (bs : ℕ) (inc : Bool) (limit : ℕ)
    (off : Int) (mo mb kd : String) (cards : List Card)
    (cp cp' : Option CpFile) (wf wf' : WriteFailure)
    (hres : (resolveStartOffset off cp).1 = (resolveStartOffset off cp').1) :
    ((runPipeline V normalize encode bs inc limit off mo mb kd cards cp wf).map
        fun r => r.batch) =
      ((runPipeline V normalize encode bs inc limit off mo mb kd cards cp' wf').map
        fun r => r.batch) := by
  unfold runPipeline
  dsimp only
  rw [hres]
  split <;> cases cp <;> cases cp' <;> rfl

/-- A pipeline run with a length-preserving encoder always succeeds
(the length assertion holds). -/
theorem runPipeline_isSome (V : Type) (normalize : V → V) (f : String → V)
    (bs : ℕ) (hbs : 0 < bs) (inc : Bool) (limit : ℕ) (off : Int)
    (mo mb kd : String) (cards : List Card) (cp : Option CpFile)
    (wf : WriteFailure) :
    ∃ r, runPipeline V normalize (fun b => b.map f) bs inc limit off mo mb kd
        cards cp wf = some r := by
  unfold runPipeline
  dsimp only
  rw [encodeAllG_pointwise normalize f bs hbs]
  rw [if_pos (by simp)]
  exact ⟨_, rfl⟩

/-- Claim C7: a non-zero explicit offset always wins; with explicit
offset 0 a readable checkpoint supplies its (non-negative)
`next_offset`; a missing checkpoint or no checkpoint path leaves the
explicit offset; a malformed checkpoint only warns, and the run
proceeds exactly as with no checkpoint, still producing the same batch,
which exists whenever the encoder is 1:1. -/
theorem claim_C7_resolve_start_offset :
    (∀ (e : Int) (cp : Option CpFile), e ≠ 0 → (resolveStartOffset e cp).1 = e)
    ∧ (∀ st : CheckpointState, 0 ≤ st.next_offset →
        (resolveStartOffset 0 (some (CpFile.valid st))).1 = st.next_offset)
    ∧ resolveStartOffset 0 (some CpFile.malformed) = (0, true)
    ∧ (∀ e : Int, (resolveStartOffset e (some CpFile.absent)).1 = e ∧
        (resolveStartOffset e none).1 = e)
    ∧ (∀ (V : Type) (normalize : V → V) (f : String → V) (bs : ℕ), 0 < bs →
        ∀ (inc : Bool) (limit : ℕ) (off : Int) (mo mb kd : String)
          (cards : List Card) (wf : WriteFailure),
        ∃ r r', runPipeline V normalize (fun b => b.map f) bs inc limit off mo mb kd
              cards (some CpFile.malformed) wf = some r ∧
          runPipeline V normalize (fun b => b.map f) bs inc limit off mo mb kd
              cards (some CpFile.absent) wf = some r' ∧
          r.batch = r'.batch ∧ r.warnedRead = true) := by
  refine ⟨?_, ?_, rfl, ?_, ?_⟩
  · intro e cp he
    cases cp with
    | none => rfl
    | some f =>
      cases f with
      | absent => rfl
      | malformed => rfl
      | valid st =>
        unfold resolveStartOffset
        dsimp only
        rw [if_neg (by tauto)]
  · intro st h
    unfold resolveStartOffset
    dsimp only
    by_cases hpos : 0 < st.next_offset
    · rw [if_pos ⟨rfl, hpos⟩]
    · rw [if_neg (by tauto)]
      have : st.next_offset = 0 := le_antisymm (not_lt.mp hpos) h
      rw [this]
  · intro e
    exact ⟨rfl, rfl⟩
  · intro V normalize f bs hbs inc limit off mo mb kd cards wf
    obtain ⟨r, hr⟩ := runPipeline_isSome V normalize f bs hbs inc limit off mo mb kd
      cards (some CpFile.malformed) wf
    obtain ⟨r', hr'⟩ := runPipeline_isSome V normalize f bs hbs inc limit off mo mb kd
      cards (some CpFile.absent) wf
    refine ⟨r, r', hr, hr', ?_, ?_⟩
    · have := runPipeline_batch_eq V normalize (fun b => b.map f) bs inc limit off
        mo mb kd cards (some CpFile.malformed) (some CpFile.absent) wf wf rfl
      rw [hr, hr'] at this
      exact Option.some.inj this
    · unfold runPipeline at hr
      dsimp only at hr
      split at hr
      · exact congrArg RunResult.warnedRead (Option.some.inj hr.symm)
      · exact absurd hr (by simp)

/-- Claim C7 witness: the clauses instantiated at concrete offsets and
checkpoint contents, including a malformed-checkpoint run over the
concrete five-card collection. -/
theorem claim_C7_witness :
    (resolveStartOffset 5 (some (CpFile.valid cpPrior))).1 = 5 ∧
      (resolveStartOffset 0 (some (CpFile.valid cpPrior))).1 = 7 ∧
      ∃ r r', runPipeline Unit id (fun b => b.map fun _ => ()) 1 false 2 0
            "m" "out.json" "st" fiveCards (some CpFile.malformed)
            WriteFailure.ok = some r ∧
        runPipeline Unit id (fun b => b.map fun _ => ()) 1 false 2 0
            "m" "out.json" "st" fiveCards (some CpFile.absent)
            WriteFailure.ok = some r' ∧
        r.batch = r'.batch ∧ r.warnedRead = true :=
  ⟨claim_C7_resolve_start_offset.1 5 (some (CpFile.valid cpPrior)) (by decide),
   claim_C7_resolve_start_offset.2.1 cpPrior (by decide),
   claim_C7_resolve_start_offset.2.2.2.2 Unit id (fun _ => ()) 1 (by decide)
     false 2 0 "m" "out.json" "st" fiveCards WriteFailure.ok⟩

/-- A successful run with a checkpoint path and a 1:1 encoder commits a
valid checkpoint whose `next_offset` is the start offset used plus the
number of objects written, with the run metadata, and no write warning. -/
theorem runPipeline_commit_ok (V : Type) (normalize : V → V) (f : String → V)
    (bs : ℕ) (hbs : 0 < bs) (inc : Bool) (limit : ℕ) (off : Int)
    (mo mb kd : String) (cards : List Card) (prior : CpFile) :
    ∃ r, runPipeline V normalize (fun b => b.map f) bs inc limit off mo mb kd
        cards (some prior) WriteFailure.ok = some r ∧
      r.cpAfter = some (CpFile.valid
        { next_offset := r.startUsed + (r.batch.length : ℕ), total := cards.length,
          last_batch_out := mb, model := mo, include_name := inc, kind := kd }) ∧
      r.warnedWrite = false := by
  unfold runPipeline
  dsimp only
  rw [encodeAllG_pointwise normalize f bs hbs, if_pos (by simp)]
  exact ⟨_, rfl, rfl, rfl⟩

/-- Claim C8 counterexample: a checkpoint-write failure raised after the
truncating `open(path, "w")` replaces a prior valid checkpoint with
unparseable content, so the write is not atomic and can corrupt the
prior checkpoint. -/
theorem claim_C8_counterexample :
    (commit_checkpoint (CpFile.valid cpPrior) cpNew WriteFailure.midWrite).1 =
        CpFile.malformed ∧
      (commit_checkpoint (CpFile.valid cpPrior) cpNew WriteFailure.midWrite).1 ≠
        CpFile.valid cpPrior ∧
      (commit_checkpoint (CpFile.valid cpPrior) cpNew WriteFailure.midWrite).1 ≠
        CpFile.valid cpNew :=
  ⟨rfl, by decide, by decide⟩

/-- Claim C8 (amended): at the end of a successful run the checkpoint is
overwritten in place with `next_offset = startOffset + objectsWritten`
plus the run metadata; a write failure surfaces only as a warning and
the run still returns its batch unchanged; a failure before the file is
opened leaves the prior checkpoint intact, while a failure after the
truncating open may corrupt it (the write is not atomic). -/
theorem claim_C8_commit_behaviour :
    (∀ (prior : CpFile) (st : CheckpointState),
      commit_checkpoint prior st WriteFailure.ok = (CpFile.valid st, false))
    ∧ (∀ (prior : CpFile) (st : CheckpointState),
        (commit_checkpoint prior st WriteFailure.beforeWrite).1 = prior)
    ∧ (∀ (prior : CpFile) (st : CheckpointState) (wf : WriteFailure),
        wf ≠ WriteFailure.ok → (commit_checkpoint prior st wf).2 = true)
    ∧ (∀ (V : Type) (normalize : V → V) (f : String → V) (bs : ℕ), 0 < bs →
        ∀ (inc : Bool) (limit : ℕ) (off : Int) (mo mb kd : String)
          (cards : List Card) (prior : CpFile),
        ∃ r, runPipeline V normalize (fun b => b.map f) bs inc limit off mo mb kd
            cards (some prior) WriteFailure.ok = some r ∧
          r.cpAfter = some (CpFile.valid
            { next_offset := r.startUsed + (r.batch.length : ℕ),
              total := cards.length, last_batch_out := mb, model := mo,
              include_name := inc, kind := kd }))
    ∧ (∀ (V : Type) (normalize : V → V) (f : String → V) (bs : ℕ), 0 < bs →
        ∀ (inc : Bool) (limit : ℕ) (off : Int) (mo mb kd : String)
          (cards : List Card) (prior : CpFile) (wf wf' : WriteFailure),
        ∃ r r', runPipeline V normalize (fun b => b.map f) bs inc limit off mo mb kd
              cards (some prior) wf = some r ∧
          runPipeline V normalize (fun b => b.map f) bs inc limit off mo mb kd
              cards (some prior) wf' = some r' ∧
          r.batch = r'.batch) := by
  refine ⟨fun _ _ => rfl, fun _ _ => rfl, ?_, ?_, ?_⟩
  · intro prior st wf h
    cases wf with
    | ok => exact absurd rfl h
    | beforeWrite => rfl
    | midWrite => rfl
  · intro V normalize f bs hbs inc limit off mo mb kd cards prior
    obtain ⟨r, hr, hcp, _⟩ := runPipeline_commit_ok V normalize f bs hbs inc limit
      off mo mb kd cards prior
    exact ⟨r, hr, hcp⟩
  · intro V normalize f bs hbs inc limit off mo mb kd cards prior wf wf'
    obtain ⟨r, hr⟩ := runPipeline_isSome V normalize f bs hbs inc limit off mo mb kd
      cards (some prior) wf
    obtain ⟨r', hr'⟩ := runPipeline_isSome V normalize f bs hbs inc limit off mo mb kd
      cards (some prior) wf'
    refine ⟨r, r', hr, hr', ?_⟩
    have := runPipeline_batch_eq V normalize (fun b => b.map f) bs inc limit off
      mo mb kd cards (some prior) (some prior) wf wf' rfl
    rw [hr, hr'] at this
    exact Option.some.inj this

/-- Claim C8 witness: the amended clauses instantiated concretely, with
the prior checkpoint preserved under a before-open failure and the
warning raised under a mid-write failure. -/
theorem claim_C8_witness :
    (commit_checkpoint (CpFile.valid cpPrior) cpNew WriteFailure.beforeWrite).1 =
        CpFile.valid cpPrior ∧
      (commit_checkpoint (CpFile.valid cpPrior) cpNew WriteFailure.midWrite).2 = true ∧
      ∃ r, runPipeline Unit id (fun b => b.map fun _ => ()) 1 false 2 0
          "m" "out.json" "st" fiveCards (some CpFile.absent)
          WriteFailure.ok = some r ∧
        r.cpAfter = some (CpFile.valid
          { next_offset := r.startUsed + (r.batch.length : ℕ),
            total := fiveCards.length, last_batch_out := "out.json", model := "m",
            include_name := false, kind := "st" }) :=
  ⟨claim_C8_commit_behaviour.2.1 (CpFile.valid cpPrior) cpNew,
   claim_C8_commit_behaviour.2.2.1 (CpFile.valid cpPrior) cpNew
     WriteFailure.midWrite (by decide),
   claim_C8_commit_behaviour.2.2.2.1 Unit id (fun _ => ()) 1 (by decide)
     false 2 0 "m" "out.json" "st" fiveCards CpFile.absent⟩

/-- Enumeration preserves length. -/
theorem enumIdx_length {α : Type} (k : ℕ) (l : List α) :
    (enumIdx k l).length = l.length := by
  induction l generalizing k with
  | nil => rfl
  | cons x xs ih => simp [enumIdx, ih]

/-- Dropping from an enumeration drops from the list and shifts the
base index. -/
theorem enumIdx_drop {α : Type} (m : ℕ) :
    ∀ (l : List α) (k : ℕ), (enumIdx k l).drop m = enumIdx (k + m) (l.drop m) := by
  induction m with
  | zero => intro l k; rfl
  | succ m ih =>
    intro l k
    cases l with
    | nil => rfl
    | cons x xs =>
      show (enumIdx (k + 1) xs).drop m = enumIdx (k + (m + 1)) (xs.drop m)
      rw [ih xs (k + 1)]
      congr 1
      omega

/-- Taking from an enumeration takes from the list. -/
theorem enumIdx_take {α : Type} (m : ℕ) :
    ∀ (l : List α) (k : ℕ), (enumIdx k l).take m = enumIdx k (l.take m) := by
  induction m with
  | zero => intro l k; rfl
  | succ m ih =>
    intro l k
    cases l with
    | nil => rfl
    | cons x xs =>
      show (k, x) :: (enumIdx (k + 1) xs).take m = (k, x) :: enumIdx (k + 1) (xs.take m)
      rw [ih xs (k + 1)]

/-- Projecting the payloads of an enumeration returns the list. -/
theorem enumIdx_map_snd {α : Type} (l : List α) :
    ∀ k : ℕ, (enumIdx k l).map Prod.snd = l := by
  induction l with
  | nil => intro k; rfl
  | cons x xs ih =>
    intro k
    show x :: (enumIdx (k + 1) xs).map Prod.snd = x :: xs
    rw [ih (k + 1)]

/-- Every position of an enumeration is at least the base index. -/
theorem enumIdx_fst_ge {α : Type} (l : List α) :
    ∀ (k : ℕ), ∀ x ∈ enumIdx k l, k ≤ x.1 := by
  induction l with
  | nil => intro k x hx; cases hx
  | cons a as ih =>
    intro k x hx
    rcases List.mem_cons.mp hx with rfl | hx
    · exact le_refl k
    · exact le_trans (Nat.le_succ k) (ih (k + 1) x hx)

/-- Every position of an enumeration is below base plus length. -/
theorem enumIdx_fst_lt {α : Type} (l : List α) :
    ∀ (k : ℕ), ∀ x ∈ enumIdx k l, x.1 < k + l.length := by
  induction l with
  | nil => intro k x hx; cases hx
  | cons a as ih =>
    intro k x hx
    rcases List.mem_cons.mp hx with rfl | hx
    · simp
    · have := ih (k + 1) x hx
      simp only [List.length_cons]
      omega

/-- Filtering an enumeration by a threshold below the base keeps
everything. -/
theorem enumIdx_filter_ge_of_le {α : Type} (m : ℕ) (l : List α) :
    ∀ (k : ℕ), m ≤ k →
      (enumIdx k l).filter (fun x => decide (m ≤ x.1)) = enumIdx k l := by
  induction l with
  | nil => intro k _; rfl
  | cons a as ih =>
    intro k hk
    show List.filter _ ((k, a) :: enumIdx (k + 1) as) = _
    rw [List.filter_cons_of_pos (by simpa using hk), ih (k + 1) (le_trans hk (Nat.le_succ k))]
    rfl

/-- Filtering an enumeration by a position threshold is dropping. -/
theorem enumIdx_filter_ge {α : Type} (m : ℕ) (l : List α) :
    ∀ (k : ℕ), (enumIdx k l).filter (fun x => decide (m ≤ x.1)) =
      (enumIdx k l).drop (m - k) := by
  induction l with
  | nil => intro k; simp [enumIdx]
  | cons a as ih =>
    intro k
    by_cases hk : m ≤ k
    · rw [enumIdx_filter_ge_of_le m (a :: as) k hk]
      have : m - k = 0 := by omega
      rw [this, List.drop_zero]
    · show List.filter _ ((k, a) :: enumIdx (k + 1) as) =
        List.drop (m - k) ((k, a) :: enumIdx (k + 1) as)
      rw [List.filter_cons_of_neg (by simpa using hk), ih (k + 1)]
      have : m - k = (m - (k + 1)) + 1 := by omega
      rw [this, List.drop_succ_cons]

/-- Branch equation of the driver loop: position below the start offset,
skip and advance `i`. -/
theorem pyWindow_cons_skip (s l k : ℕ) (c : Card) (rest : List (ℕ × Card))
    (i p : ℕ) (h : i < s) :
    pyWindow s l ((k, c) :: rest) i p =
      ((pyWindow s l rest (i + 1) p).1, (pyWindow s l rest (i + 1) p).2 + 1) := by
  simp only [pyWindow]
  rw [if_pos h]

/-- Branch equation of the driver loop: a card without a truthy
identifier is skipped with `i` unchanged. -/
theorem pyWindow_cons_noid (s l k : ℕ) (c : Card) (rest : List (ℕ × Card))
    (i p : ℕ) (h1 : ¬ i < s) (h2 : hasId c = false) :
    pyWindow s l ((k, c) :: rest) i p =
      ((pyWindow s l rest i p).1, (pyWindow s l rest i p).2 + 1) := by
  simp only [pyWindow]
  rw [if_neg h1, if_pos h2]

/-- Branch equation of the driver loop: the accepted card that reaches
the limit is emitted and the loop breaks. -/
theorem pyWindow_cons_break (s l k : ℕ) (c : Card) (rest : List (ℕ × Card))
    (i p : ℕ) (h1 : ¬ i < s) (h2 : hasId c = true) (h3 : l ≠ 0 ∧ l ≤ p + 1) :
    pyWindow s l ((k, c) :: rest) i p = ([(k, c)], 1) := by
  simp only [pyWindow]
  rw [if_neg h1, if_neg (by simp [h2]), if_pos h3]

/-- Branch equation of the driver loop: an accepted card below the limit
is emitted and the loop continues with `i` and `processed` advanced. -/
theorem pyWindow_cons_accept (s l k : ℕ) (c : Card) (rest : List (ℕ × Card))
    (i p : ℕ) (h1 : ¬ i < s) (h2 : hasId c = true) (h3 : ¬(l ≠ 0 ∧ l ≤ p + 1)) :
    pyWindow s l ((k, c) :: rest) i p =
      ((k, c) :: (pyWindow s l rest (i + 1) (p + 1)).1,
        (pyWindow s l rest (i + 1) (p + 1)).2 + 1) := by
  simp only [pyWindow]
  rw [if_neg h1, if_neg (by simp [h2]), if_neg h3]

/-- Skip phase of the driver loop: while `i` is below the start offset
the loop drops one card per step, consuming `min (s - i) xs.length`
cards, and then continues from state `i = s`. -/
theorem pyWindow_skip_phase (s l : ℕ) :
    ∀ (xs : List (ℕ × Card)) (i p : ℕ), i ≤ s →
      pyWindow s l xs i p =
        ((pyWindow s l (xs.drop (s - i)) s p).1,
          (pyWindow s l (xs.drop (s - i)) s p).2 + min (s - i) xs.length) := by
  intro xs
  induction xs with
  | nil => intro i p _; simp [pyWindow]
  | cons x rest ih =>
    intro i p hi
    obtain ⟨k, c⟩ := x
    by_cases hlt : i < s
    · rw [pyWindow_cons_skip s l k c rest i p hlt, ih (i + 1) p hlt]
      have hdrop : ((k, c) :: rest).drop (s - i) = rest.drop (s - (i + 1)) := by
        have : s - i = (s - (i + 1)) + 1 := by omega
        rw [this, List.drop_succ_cons]
      have hmin : min (s - i) ((k, c) :: rest).length =
          min (s - (i + 1)) rest.length + 1 := by
        simp only [List.length_cons]
        omega
      rw [hdrop, hmin]
      dsimp only
      rw [Nat.add_assoc]
    · have his : i = s := le_antisymm hi (not_lt.mp hlt)
      subst his
      simp [Nat.sub_self]

/-- Main phase of the driver loop with a non-zero limit: from a state at
or past the start offset, the accepted cards are the first
`limit - processed` cards with a truthy identifier. -/
theorem pyWindow_main_bounded (s l : ℕ) (hl : l ≠ 0) :
    ∀ (xs : List (ℕ × Card)) (i p : ℕ), s ≤ i → p < l →
      (pyWindow s l xs i p).1 = (xs.filter fun x => hasId x.2).take (l - p) := by
  intro xs
  induction xs with
  | nil => intro i p _ _; simp [pyWindow]
  | cons x rest ih =>
    intro i p hi hp
    obtain ⟨k, c⟩ := x
    have h1 : ¬ i < s := not_lt.mpr hi
    cases hc : hasId c with
    | false =>
      rw [pyWindow_cons_noid s l k c rest i p h1 hc,
        List.filter_cons_of_neg (by simpa using hc)]
      exact ih i p hi hp
    | true =>
      by_cases hbreak : l ≤ p + 1
      · rw [pyWindow_cons_break s l k c rest i p h1 hc ⟨hl, hbreak⟩,
          List.filter_cons_of_pos (by simpa using hc)]
        have : l - p = 1 := by omega
        rw [this]
        rfl
      · rw [pyWindow_cons_accept s l k c rest i p h1 hc (by tauto),
          List.filter_cons_of_pos (by simpa using hc)]
        have : l - p = (l - (p + 1)) + 1 := by omega
        rw [this, List.take_succ_cons]
        rw [ih (i + 1) (p + 1) (le_trans hi (Nat.le_succ i)) (by omega)]

/-- The driver loop consumes at most the whole input. -/
theorem pyWindow_examined_le (s l : ℕ) :
    ∀ (xs : List (ℕ × Card)) (i p : ℕ), (pyWindow s l xs i p).2 ≤ xs.length := by
  intro xs
  induction xs with
  | nil => intro i p; simp [pyWindow]
  | cons x rest ih =>
    intro i p
    obtain ⟨k, c⟩ := x
    by_cases hlt : i < s
    · rw [pyWindow_cons_skip s l k c rest i p hlt]
      simpa using ih (i + 1) p
    · cases hc : hasId c with
      | false =>
        rw [pyWindow_cons_noid s l k c rest i p hlt hc]
        simpa using ih i p
      | true =>
        by_cases hbreak : l ≠ 0 ∧ l ≤ p + 1
        · rw [pyWindow_cons_break s l k c rest i p hlt hc hbreak]
          simp
        · rw [pyWindow_cons_accept s l k c rest i p hlt hc hbreak]
          simpa using ih (i + 1) (p + 1)

/-- Counting invariant of the main phase: the number of consumed cards
equals the number of accepted cards plus the number of identifier-less
cards among the consumed ones. -/
theorem pyWindow_count (s l : ℕ) :
    ∀ (xs : List (ℕ × Card)) (i p : ℕ), s ≤ i →
      (pyWindow s l xs i p).2 =
        (pyWindow s l xs i p).1.length +
          ((xs.take (pyWindow s l xs i p).2).filter fun x => !hasId x.2).length := by
  intro xs
  induction xs with
  | nil => intro i p _; simp [pyWindow]
  | cons x rest ih =>
    intro i p hi
    obtain ⟨k, c⟩ := x
    have h1 : ¬ i < s := not_lt.mpr hi
    cases hc : hasId c with
    | false =>
      rw [pyWindow_cons_noid s l k c rest i p h1 hc]
      have hih := ih i p hi
      dsimp only
      rw [List.take_succ_cons]
      simp only [List.filter_cons, hc, Bool.not_false, if_true, List.length_cons]
      omega
    | true =>
      by_cases hbreak : l ≠ 0 ∧ l ≤ p + 1
      · rw [pyWindow_cons_break s l k c rest i p h1 hc hbreak]
        simp [hc]
      · rw [pyWindow_cons_accept s l k c rest i p h1 hc hbreak]
        have hih := ih (i + 1) (p + 1) (le_trans hi (Nat.le_succ i))
        dsimp only
        rw [List.take_succ_cons]
        simp [List.filter_cons, hc]
        omega

/-- Payloads of enumeration members belong to the underlying list. -/
theorem enumIdx_mem_snd {α : Type} (l : List α) :
    ∀ (k : ℕ) (x : ℕ × α), x ∈ enumIdx k l → x.2 ∈ l := by
  induction l with
  | nil => intro k x hx; cases hx
  | cons a as ih =>
    intro k x hx
    rcases List.mem_cons.mp hx with rfl | hx
    · exact List.mem_cons_self a as
    · exact List.mem_cons_of_mem a (ih (k + 1) x hx)

/-- Mapping a payload function over an enumeration maps the list. -/
theorem enumIdx_map_snd_comp {α β : Type} (g : α → β) (k : ℕ) (l : List α) :
    (enumIdx k l).map (fun x => g x.2) = l.map g := by
  rw [show (fun x : ℕ × α => g x.2) = g ∘ Prod.snd from rfl, ← List.map_map,
    enumIdx_map_snd]

/-- Characterization of the windowing pass with a non-zero limit: the
accepted cards are the first `limit` position-annotated cards at or past
the start offset that carry a truthy identifier. -/
theorem runWindow_accepted (s l : ℕ) (cards : List Card) (hl : l ≠ 0) :
    (runWindow s l cards).1 =
      ((enumIdx 0 cards).filter fun x => decide (s ≤ x.1) && hasId x.2).take l := by
  unfold runWindow
  rw [pyWindow_skip_phase s l (enumIdx 0 cards) 0 0 (Nat.zero_le s)]
  dsimp only
  rw [pyWindow_main_bounded s l hl _ s 0 le_rfl (Nat.pos_of_ne_zero hl)]
  rw [← enumIdx_filter_ge s cards 0]
  rw [List.filter_filter]
  have h1 : l - 0 = l := rfl
  rw [h1]
  refine congrArg (List.take l) ?_
  exact List.filter_congr fun a _ => Bool.and_comm _ _

/-- On a collection whose cards all have truthy identifiers, the window
with a non-zero limit is exactly the enumerated slice
`[start, start + limit)`. -/
theorem runWindow_all_ids (s l : ℕ) (cards : List Card) (hl : l ≠ 0)
    (hids : ∀ c ∈ cards, hasId c = true) :
    (runWindow s l cards).1 = enumIdx s ((cards.drop s).take l) := by
  rw [runWindow_accepted s l cards hl]
  have hfe : (enumIdx 0 cards).filter (fun x => decide (s ≤ x.1) && hasId x.2) =
      (enumIdx 0 cards).filter (fun x => decide (s ≤ x.1)) := by
    refine List.filter_congr fun x hx => ?_
    rw [hids x.2 (enumIdx_mem_snd cards 0 x hx), Bool.and_true]
  rw [hfe, enumIdx_filter_ge s cards 0]
  have h1 : s - 0 = s := rfl
  rw [h1, enumIdx_drop, enumIdx_take]
  rw [Nat.zero_add]

/-- Mapping identifiers over the assembled output objects projects the
first components of the id/property pairs. -/
theorem zip_map_mk_ids (V : Type) (idx : List (String × List (String × PVal)))
    (vecs : List V) (h : idx.length ≤ vecs.length) :
    ((idx.zip vecs).map fun pv =>
        ({ objClass := "Card", id := pv.1.1, properties := clean_props pv.1.2,
           vector := pv.2 : OutputObject V })).map OutputObject.id =
      idx.map Prod.fst := by
  rw [List.map_map]
  rw [show (OutputObject.id ∘ fun pv : (String × List (String × PVal)) × V =>
      ({ objClass := "Card", id := pv.1.1, properties := clean_props pv.1.2,
         vector := pv.2 : OutputObject V })) = Prod.fst ∘ Prod.fst from rfl]
  rw [← List.map_map, List.map_fst_zip idx vecs h]

/-- Master description of a pipeline run with a 1:1 encoder: the run
succeeds, uses the resolved start offset, its batch carries exactly the
identifiers of the accepted window in order, and, when a checkpoint
path is present and the write succeeds, commits
`next_offset = startUsed + batch length` with the run metadata. -/
theorem runPipeline_spec (V : Type) (normalize : V → V) (f : String → V)
    (bs : ℕ) (hbs : 0 < bs) (inc : Bool) (limit : ℕ) (off : Int)
    (mo mb kd : String) (cards : List Card) (cp : Option CpFile)
    (wf : WriteFailure) :
    ∃ r, runPipeline V normalize (fun b => b.map f) bs inc limit off mo mb kd
        cards cp wf = some r ∧
      r.startUsed = (resolveStartOffset off cp).1 ∧
      r.batch.map OutputObject.id =
        (runWindow (resolveStartOffset off cp).1.toNat limit cards).1.map
          (fun x => strVal x.2.id) ∧
      r.batch.length =
        (runWindow (resolveStartOffset off cp).1.toNat limit cards).1.length ∧
      (∀ prior, cp = some prior → wf = WriteFailure.ok →
        r.cpAfter = some (CpFile.valid
          { next_offset := r.startUsed + (r.batch.length : ℕ),
            total := cards.length, last_batch_out := mb, model := mo,
            include_name := inc, kind := kd })) := by
  unfold runPipeline runWindow
  dsimp only
  rw [encodeAllG_pointwise normalize f bs hbs, if_pos (by simp)]
  refine ⟨_, rfl, rfl, ?_, ?_, ?_⟩
  · rw [zip_map_mk_ids V _ _ (by simp), List.map_map]
    rfl
  · simp [List.length_zip]
  · intro prior hcp hwf
    subst hcp
    subst hwf
    rfl

/-- With explicit offset 0, a valid checkpoint with non-negative
`next_offset` resolves to that `next_offset`. -/
theorem resolve_zero_valid (st : CheckpointState) (h : 0 ≤ st.next_offset) :
    (resolveStartOffset 0 (some (CpFile.valid st))).1 = st.next_offset := by
  unfold resolveStartOffset
  dsimp only
  by_cases hpos : 0 < st.next_offset
  · rw [if_pos ⟨rfl, hpos⟩]
  · rw [if_neg (by tauto)]
    exact (le_antisymm (not_lt.mp hpos) h).symm

/-- Claim C1: a run resumed from a checkpoint with explicit offset 0
over a collection of identified cards processes exactly the cards at
positions `[next_offset, next_offset + limit)` and commits
`next_offset + objects written`; and the concrete two-run scenario:
over any 5-card collection with distinct identifiers and limit 2, the
committed `next_offset` is 2 after the first run and 4 after the
second, and the two batches together carry exactly the identifiers of
the first 4 cards, with no overlap and no gap. -/
theorem claim_C1_resume_window :
    (∀ (V : Type) (normalize : V → V) (f : String → V) (bs : ℕ), 0 < bs →
      ∀ (inc : Bool) (limit : ℕ), limit ≠ 0 →
      ∀ (mo mb kd : String) (cards : List Card) (st : CheckpointState)
        (wf : WriteFailure),
        0 ≤ st.next_offset → (∀ c ∈ cards, hasId c = true) →
        ∃ r, runPipeline V normalize (fun b => b.map f) bs inc limit 0 mo mb kd
            cards (some (CpFile.valid st)) wf = some r ∧
          r.batch.map OutputObject.id =
            ((cards.drop st.next_offset.toNat).take limit).map
              (fun c => strVal c.id) ∧
          (wf = WriteFailure.ok → r.cpAfter = some (CpFile.valid
            { next_offset := st.next_offset +
                ((((cards.drop st.next_offset.toNat).take limit)).length : ℕ),
              total := cards.length, last_batch_out := mb, model := mo,
              include_name := inc, kind := kd })))
    ∧ (∀ (V : Type) (normalize : V → V) (f : String → V) (bs : ℕ), 0 < bs →
      ∀ (inc : Bool) (mo mb kd : String) (cards : List Card),
        cards.length = 5 → (∀ c ∈ cards, hasId c = true) →
        (cards.map fun c => strVal c.id).Nodup →
        ∃ r₁ r₂,
          runPipeline V normalize (fun b => b.map f) bs inc 2 0 mo mb kd
              cards (some CpFile.absent) WriteFailure.ok = some r₁ ∧
          runPipeline V normalize (fun b => b.map f) bs inc 2 0 mo mb kd
              cards r₁.cpAfter WriteFailure.ok = some r₂ ∧
          (∃ st₁, r₁.cpAfter = some (CpFile.valid st₁) ∧ st₁.next_offset = 2) ∧
          (∃ st₂, r₂.cpAfter = some (CpFile.valid st₂) ∧ st₂.next_offset = 4) ∧
          r₁.batch.map OutputObject.id ++ r₂.batch.map OutputObject.id =
            (cards.take 4).map (fun c => strVal c.id) ∧
          (r₁.batch.map OutputObject.id).Disjoint
            (r₂.batch.map OutputObject.id)) := by
  constructor
  · intro V normalize f bs hbs inc limit hlim mo mb kd cards st wf hnn hids
    obtain ⟨r, hr, hs, hi, hl, hc⟩ := runPipeline_spec V normalize f bs hbs inc
      limit 0 mo mb kd cards (some (CpFile.valid st)) wf
    have hres : (resolveStartOffset 0 (some (CpFile.valid st))).1 = st.next_offset :=
      resolve_zero_valid st hnn
    have hlen : r.batch.length =
        ((cards.drop st.next_offset.toNat).take limit).length := by
      rw [hl, hres, runWindow_all_ids _ limit cards hlim hids, enumIdx_length]
    refine ⟨r, hr, ?_, ?_⟩
    · rw [hi, hres, runWindow_all_ids _ limit cards hlim hids,
        enumIdx_map_snd_comp (fun c : Card => strVal c.id)]
    · intro hwf
      have hcp := hc (CpFile.valid st) rfl hwf
      rw [hcp, hs, hres, hlen]
  · intro V normalize f bs hbs inc mo mb kd cards h5 hids hnd
    obtain ⟨r₁, hr₁, hs₁, hi₁, hl₁, hc₁⟩ := runPipeline_spec V normalize f bs hbs
      inc 2 0 mo mb kd cards (some CpFile.absent) WriteFailure.ok
    have hres₁ : (resolveStartOffset 0 (some CpFile.absent)).1 = 0 := rfl
    rw [hres₁] at hs₁
    have hid₁ : r₁.batch.map OutputObject.id =
        (cards.take 2).map fun c => strVal c.id := by
      rw [hi₁, hres₁, runWindow_all_ids _ 2 cards (by decide) hids,
        enumIdx_map_snd_comp (fun c : Card => strVal c.id)]
      simp
    have hlen₁ : r₁.batch.length = 2 := by
      rw [hl₁, hres₁, runWindow_all_ids _ 2 cards (by decide) hids, enumIdx_length,
        List.length_take, List.length_drop, h5]
      decide
    have hno₁ : r₁.startUsed + (r₁.batch.length : ℕ) = (2 : ℤ) := by
      rw [hs₁, hlen₁]
      decide
    have hcp₁ := hc₁ CpFile.absent rfl rfl
    rw [hno₁] at hcp₁
    have hres₂ : (resolveStartOffset 0 r₁.cpAfter).1 = 2 := by
      rw [hcp₁]
      exact resolve_zero_valid _ (by norm_num)
    obtain ⟨r₂, hr₂, hs₂, hi₂, hl₂, hc₂⟩ := runPipeline_spec V normalize f bs hbs
      inc 2 0 mo mb kd cards r₁.cpAfter WriteFailure.ok
    rw [hres₂] at hs₂
    have hid₂ : r₂.batch.map OutputObject.id =
        ((cards.drop 2).take 2).map fun c => strVal c.id := by
      rw [hi₂, hres₂, runWindow_all_ids _ 2 cards (by decide) hids,
        enumIdx_map_snd_comp (fun c : Card => strVal c.id)]
      simp
    have hlen₂ : r₂.batch.length = 2 := by
      rw [hl₂, hres₂, runWindow_all_ids _ 2 cards (by decide) hids, enumIdx_length,
        List.length_take, List.length_drop, h5]
      decide
    have hno₂ : r₂.startUsed + (r₂.batch.length : ℕ) = (4 : ℤ) := by
      rw [hs₂, hlen₂]
      decide
    have hcp₂ := hc₂ _ hcp₁ rfl
    rw [hno₂] at hcp₂
    have hunion : r₁.batch.map OutputObject.id ++ r₂.batch.map OutputObject.id =
        (cards.take 4).map (fun c => strVal c.id) := by
      rw [hid₁, hid₂, ← List.map_append, show (4 : ℕ) = 2 + 2 from rfl,
        List.take_add]
    have hnd4 : ((cards.take 4).map (fun c => strVal c.id)).Nodup := by
      rw [List.map_take]
      exact List.Nodup.sublist (List.take_sublist 4 _) hnd
    refine ⟨r₁, r₂, hr₁, hr₂, ⟨_, hcp₁, rfl⟩, ⟨_, hcp₂, rfl⟩, hunion, ?_⟩
    have : (r₁.batch.map OutputObject.id ++ r₂.batch.map OutputObject.id).Nodup := by
      rw [hunion]
      exact hnd4
    exact (List.nodup_append.mp this).2.2

/-- Claim C1 witness: the two-run scenario evaluated on the concrete
five-card collection, and the general clause at a concrete checkpoint. -/
theorem claim_C1_witness :
    (∃ r₁ r₂,
      runPipeline Unit id (fun b => b.map fun _ => ()) 1 false 2 0 "m" "out.json"
          "st" fiveCards (some CpFile.absent) WriteFailure.ok = some r₁ ∧
      runPipeline Unit id (fun b => b.map fun _ => ()) 1 false 2 0 "m" "out.json"
          "st" fiveCards r₁.cpAfter WriteFailure.ok = some r₂ ∧
      (∃ st₁, r₁.cpAfter = some (CpFile.valid st₁) ∧ st₁.next_offset = 2) ∧
      (∃ st₂, r₂.cpAfter = some (CpFile.valid st₂) ∧ st₂.next_offset = 4) ∧
      r₁.batch.map OutputObject.id ++ r₂.batch.map OutputObject.id =
        (fiveCards.take 4).map (fun c => strVal c.id) ∧
      (r₁.batch.map OutputObject.id).Disjoint (r₂.batch.map OutputObject.id)) ∧
    (∃ r, runPipeline Unit id (fun b => b.map fun _ => ()) 1 false 2 0 "m"
        "out.json" "st" fiveCards (some (CpFile.valid cpNew)) WriteFailure.ok =
          some r ∧
      r.batch.map OutputObject.id =
        ((fiveCards.drop cpNew.next_offset.toNat).take 2).map
          (fun c => strVal c.id) ∧
      (WriteFailure.ok = WriteFailure.ok → r.cpAfter = some (CpFile.valid
        { next_offset := cpNew.next_offset +
            ((((fiveCards.drop cpNew.next_offset.toNat).take 2)).length : ℕ),
          total := fiveCards.length, last_batch_out := "out.json", model := "m",
          include_name := false, kind := "st" }))) :=
  ⟨claim_C1_resume_window.2 Unit id (fun _ => ()) 1 (by decide) false "m"
      "out.json" "st" fiveCards (by decide) (by decide) (by decide),
   claim_C1_resume_window.1 Unit id (fun _ => ()) 1 (by decide) false 2
      (by decide) "m" "out.json" "st" fiveCards cpNew WriteFailure.ok
      (by decide) (by decide)⟩

/-- When the examined window (at or past the start offset) contains an
identifier-less card, the committed offset `start + accepted` falls
strictly short of the index one past the last examined card. -/
theorem runWindow_gap (s l : ℕ) (cards : List Card)
    (hx : ∃ x ∈ (enumIdx 0 cards).take (runWindow s l cards).2,
      s ≤ x.1 ∧ hasId x.2 = false) :
    s + (runWindow s l cards).1.length < (runWindow s l cards).2 := by
  obtain ⟨x, hxmem, hxs, hxid⟩ := hx
  have hxT : x ∈ enumIdx 0 cards := List.take_subset _ _ hxmem
  have hxlt : x.1 < (enumIdx 0 cards).length := by
    have h0 := enumIdx_fst_lt cards 0 x hxT
    rw [enumIdx_length]
    omega
  have hsT : s ≤ (enumIdx 0 cards).length := by omega
  have hskip := pyWindow_skip_phase s l (enumIdx 0 cards) 0 0 (Nat.zero_le s)
  have hmin : min (s - 0) (enumIdx 0 cards).length = s := by
    rw [Nat.sub_zero]
    exact min_eq_left hsT
  unfold runWindow at hxmem ⊢
  rw [hskip] at hxmem ⊢
  dsimp only at hxmem ⊢
  rw [hmin] at hxmem ⊢
  rw [Nat.sub_zero] at hxmem ⊢
  have hcount := pyWindow_count s l ((enumIdx 0 cards).drop s) s 0 le_rfl
  have hxdrop : x ∈ ((enumIdx 0 cards).drop s).take
      (pyWindow s l ((enumIdx 0 cards).drop s) s 0).2 := by
    have h1 : x ∈ ((enumIdx 0 cards).take
        ((pyWindow s l ((enumIdx 0 cards).drop s) s 0).2 + s)).filter
          (fun y => decide (s ≤ y.1)) :=
      List.mem_filter.mpr ⟨hxmem, by simpa using hxs⟩
    rw [enumIdx_take, enumIdx_filter_ge, ← enumIdx_take] at h1
    rw [Nat.sub_zero, List.drop_take, Nat.add_sub_cancel] at h1
    exact h1
  have hxf : x ∈ (((enumIdx 0 cards).drop s).take
      (pyWindow s l ((enumIdx 0 cards).drop s) s 0).2).filter
        (fun y => !hasId y.2) :=
    List.mem_filter.mpr ⟨hxdrop, by simp [hxid]⟩
  have hpos : 0 < ((((enumIdx 0 cards).drop s).take
      (pyWindow s l ((enumIdx 0 cards).drop s) s 0).2).filter
        (fun y => !hasId y.2)).length :=
    List.length_pos.mpr (List.ne_nil_of_mem hxf)
  omega

/-- A card accepted at a position at or past `start + accepted count`
is accepted again by the window that starts at `start + accepted
count`. -/
theorem runWindow_reemit (s l : ℕ) (cards : List Card) (hl : l ≠ 0) :
    ∀ x ∈ (runWindow s l cards).1,
      s + (runWindow s l cards).1.length ≤ x.1 →
      x ∈ (runWindow (s + (runWindow s l cards).1.length) l cards).1 := by
  intro x hx hge
  set A := (runWindow s l cards).1.length with hA
  rw [runWindow_accepted s l cards hl] at hx
  rw [runWindow_accepted (s + A) l cards hl]
  have hx1 : x ∈ (((enumIdx 0 cards).filter fun y => decide (s ≤ y.1) && hasId y.2).take l).filter
      (fun y => decide (s + A ≤ y.1)) :=
    List.mem_filter.mpr ⟨hx, by simpa using hge⟩
  have hsplit : ((enumIdx 0 cards).filter fun y => decide (s ≤ y.1) && hasId y.2).filter
      (fun y => decide (s + A ≤ y.1)) =
      ((((enumIdx 0 cards).filter fun y => decide (s ≤ y.1) && hasId y.2).take l).filter
        (fun y => decide (s + A ≤ y.1))) ++
      ((((enumIdx 0 cards).filter fun y => decide (s ≤ y.1) && hasId y.2).drop l).filter
        (fun y => decide (s + A ≤ y.1))) := by
    rw [← List.filter_append, List.take_append_drop]
  have hm : ((((enumIdx 0 cards).filter fun y => decide (s ≤ y.1) && hasId y.2).take l).filter
      (fun y => decide (s + A ≤ y.1))).length ≤ l :=
    le_trans (List.length_filter_le _ _) (List.length_take_le l _)
  have htake : (((enumIdx 0 cards).filter fun y => decide (s ≤ y.1) && hasId y.2).filter
      (fun y => decide (s + A ≤ y.1))).take
        ((((enumIdx 0 cards).filter fun y => decide (s ≤ y.1) && hasId y.2).take l).filter
          (fun y => decide (s + A ≤ y.1))).length =
      (((enumIdx 0 cards).filter fun y => decide (s ≤ y.1) && hasId y.2).take l).filter
        (fun y => decide (s + A ≤ y.1)) := by
    rw [hsplit]
    exact List.take_left _ _
  rw [← htake] at hx1
  have h1 : (((enumIdx 0 cards).filter fun y => decide (s ≤ y.1) && hasId y.2).filter
      (fun y => decide (s + A ≤ y.1))).take
        ((((enumIdx 0 cards).filter fun y => decide (s ≤ y.1) && hasId y.2).take l).filter
          (fun y => decide (s + A ≤ y.1))).length =
      ((((enumIdx 0 cards).filter fun y => decide (s ≤ y.1) && hasId y.2).filter
        (fun y => decide (s + A ≤ y.1))).take l).take
          ((((enumIdx 0 cards).filter fun y => decide (s ≤ y.1) && hasId y.2).take l).filter
            (fun y => decide (s + A ≤ y.1))).length := by
    rw [List.take_take, min_eq_left hm]
  rw [h1] at hx1
  have hx3 := List.take_subset _ _ hx1
  have hPQ : (((enumIdx 0 cards).filter fun y => decide (s ≤ y.1) && hasId y.2).filter
      (fun y => decide (s + A ≤ y.1))) =
      (enumIdx 0 cards).filter (fun y => decide (s + A ≤ y.1) && hasId y.2) := by
    rw [List.filter_filter]
    refine List.filter_congr fun y _ => ?_
    by_cases h : s + A ≤ y.1
    · have h2 : s ≤ y.1 := le_trans (Nat.le_add_right s A) h
      simp [h, h2]
    · simp [h]
  rw [hPQ] at hx3
  exact hx3

/-- Claim C10: in the windowing pass a card at or past the start offset
without an identifier is skipped without advancing the position counter
`i`; the committed `next_offset` is the start offset plus the number of
objects written; hence a processed window (under a non-zero limit) that
contains an identifier-less card commits a `next_offset` strictly below
the index one past the last examined card, and a run resumed from that
`next_offset` re-examines and re-emits the trailing accepted cards of
the previous window. -/
theorem claim_C10_offset_drift :
    (∀ (s l k : ℕ) (c : Card) (rest : List (ℕ × Card)) (i p : ℕ),
      s ≤ i → hasId c = false →
      pyWindow s l ((k, c) :: rest) i p =
        ((pyWindow s l rest i p).1, (pyWindow s l rest i p).2 + 1))
    ∧ (∀ (V : Type) (normalize : V → V) (f : String → V) (bs : ℕ), 0 < bs →
        ∀ (inc : Bool) (limit : ℕ) (off : Int) (mo mb kd : String)
          (cards : List Card) (prior : CpFile),
        ∃ r, runPipeline V normalize (fun b => b.map f) bs inc limit off mo mb kd
            cards (some prior) WriteFailure.ok = some r ∧
          r.cpAfter = some (CpFile.valid
            { next_offset := r.startUsed + (r.batch.length : ℕ),
              total := cards.length, last_batch_out := mb, model := mo,
              include_name := inc, kind := kd }))
    ∧ (∀ (s l : ℕ) (cards : List Card), l ≠ 0 →
        (∃ x ∈ (enumIdx 0 cards).take (runWindow s l cards).2,
          s ≤ x.1 ∧ hasId x.2 = false) →
        s + (runWindow s l cards).1.length < (runWindow s l cards).2)
    ∧ (∀ (s l : ℕ) (cards : List Card), l ≠ 0 →
        ∀ x ∈ (runWindow s l cards).1,
          s + (runWindow s l cards).1.length ≤ x.1 →
          x ∈ (runWindow (s + (runWindow s l cards).1.length) l cards).1)
    ∧ (∀ (V : Type) (normalize : V → V) (f : String → V) (bs : ℕ), 0 < bs →
        ∀ (inc : Bool) (limit : ℕ), limit ≠ 0 →
        ∀ (mo mb kd : String) (cards : List Card) (wf : WriteFailure) (s : ℕ),
        ∀ x ∈ (runWindow s limit cards).1,
          s + (runWindow s limit cards).1.length ≤ x.1 →
          ∃ r, runPipeline V normalize (fun b => b.map f) bs inc limit 0 mo mb kd
              cards (some (CpFile.valid
                { next_offset := ((s + (runWindow s limit cards).1.length : ℕ) : ℤ),
                  total := cards.length, last_batch_out := mb, model := mo,
                  include_name := inc, kind := kd })) wf = some r ∧
            strVal x.2.id ∈ r.batch.map OutputObject.id) := by
  refine ⟨?_, ?_, ?_, ?_, ?_⟩
  · intro s l k c rest i p hi hc
    exact pyWindow_cons_noid s l k c rest i p (not_lt.mpr hi) hc
  · intro V normalize f bs hbs inc limit off mo mb kd cards prior
    obtain ⟨r, hr, hcp, _⟩ := runPipeline_commit_ok V normalize f bs hbs inc limit
      off mo mb kd cards prior
    exact ⟨r, hr, hcp⟩
  · intro s l cards _ hx
    exact runWindow_gap s l cards hx
  · intro s l cards hl
    exact runWindow_reemit s l cards hl
  · intro V normalize f bs hbs inc limit hlim mo mb kd cards wf s x hx hge
    obtain ⟨r, hr, hs, hi, _, _⟩ := runPipeline_spec V normalize f bs hbs inc
      limit 0 mo mb kd cards (some (CpFile.valid
        { next_offset := ((s + (runWindow s limit cards).1.length : ℕ) : ℤ),
          total := cards.length, last_batch_out := mb, model := mo,
          include_name := inc, kind := kd })) wf
    refine ⟨r, hr, ?_⟩
    have hres : (resolveStartOffset 0 (some (CpFile.valid
        { next_offset := ((s + (runWindow s limit cards).1.length : ℕ) : ℤ),
          total := cards.length, last_batch_out := mb, model := mo,
          include_name := inc, kind := kd }))).1 =
        ((s + (runWindow s limit cards).1.length : ℕ) : ℤ) :=
      resolve_zero_valid _ (Int.ofNat_nonneg _)
    rw [hi, hres]
    have hre := runWindow_reemit s limit cards hlim x hx hge
    have htn : ((s + (runWindow s limit cards).1.length : ℕ) : ℤ).toNat =
        s + (runWindow s limit cards).1.length := rfl
    rw [htn]
    exact List.mem_map_of_mem (fun y => strVal y.2.id) hre

/-- Claim C10 witness: on the concrete four-card collection with an
identifier-less card at position 1 and limit 2, the committed offset
falls short of the examined range, and the trailing accepted card at
position 2 is re-emitted by the resumed run. -/
theorem claim_C10_witness :
    (0 + (runWindow 0 2 driftCards).1.length < (runWindow 0 2 driftCards).2) ∧
    (∃ r, runPipeline Unit id (fun b => b.map fun _ => ()) 1 false 2 0 "m"
        "out.json" "st" driftCards (some (CpFile.valid
          { next_offset := ((0 + (runWindow 0 2 driftCards).1.length : ℕ) : ℤ),
            total := driftCards.length, last_batch_out := "out.json",
            model := "m", include_name := false, kind := "st" }))
        WriteFailure.ok = some r ∧
      strVal ({ emptyCard with id := some "b" } : Card).id ∈
        r.batch.map OutputObject.id) :=
  ⟨claim_C10_offset_drift.2.2.1 0 2 driftCards (by decide)
    ⟨(1, { emptyCard with name := some "NoIdCard" }), by decide, by decide, by decide⟩,
   claim_C10_offset_drift.2.2.2.2 Unit id (fun _ => ()) 1 (by decide) false 2
    (by decide) "m" "out.json" "st" driftCards WriteFailure.ok 0
    (2, { emptyCard with id := some "b" }) (by decide) (by decide)⟩
